import Mathlib

/-!
Verification of the wisp development-time process supervisor.

This file gives a shallow embedding of the core of the repository
(`internal/process/process.go`, `internal/watcher/watcher.go`,
`internal/runner/runner.go`, `internal/session`, `internal/config/config.go`)
and proves the spec's claims about it.

Pure Go standard-library string functions (`strings.Fields`,
`strings.Contains`, `strings.HasSuffix`, `strings.ReplaceAll`,
`path/filepath.Base`, `path/filepath.Ext`) are translated concretely below.
External effectful collaborators (the OS process table, fsnotify, compiled
regexes, `filepath.Match` glob compilation) are modelled at their boundary:
command execution results and spawn outcomes are environment parameters,
compiled glob/regex matchers are abstract `String → Bool` predicates.
-/

namespace Wisp

/-! ## Go standard-library string helpers (translated from their documented
semantics, restricted to ASCII whitespace for `strings.Fields`) -/

/-- The ASCII part of Go's `unicode.IsSpace`, as used by `strings.Fields`. -/
def goIsSpace (c : Char) : Bool :=
  c = ' ' || c = '\t' || c = '\n' || c = '\r' || c = Char.ofNat 11 || c = Char.ofNat 12

/-- Accumulator worker for `strings.Fields`: splits on runs of whitespace. -/
def fieldsAux : List Char → List Char → List (List Char)
  | [], cur => if cur = [] then [] else [cur.reverse]
  | c :: t, cur =>
    if goIsSpace c then
      if cur = [] then fieldsAux t [] else cur.reverse :: fieldsAux t []
    else fieldsAux t (c :: cur)

/-- Go `strings.Fields`: split a string around runs of whitespace. -/
def goFields (s : String) : List String :=
  (fieldsAux s.data []).map (fun l => ⟨l⟩)

/-- Go `strings.HasPrefix`. -/
def goStartsWith (s p : String) : Bool := p.data.isPrefixOf s.data

/-- Go `strings.HasSuffix`. -/
def goEndsWith (s p : String) : Bool := p.data.reverse.isPrefixOf s.data.reverse

/-- Worker for Go `strings.Contains`: does `needle` occur in the list? -/
def hasSubCh (needle : List Char) : List Char → Bool
  | [] => needle.isEmpty
  | c :: t => needle.isPrefixOf (c :: t) || hasSubCh needle t

/-- Go `strings.Contains`. -/
def goContains (s sub : String) : Bool := hasSubCh sub.data s.data

/-- Worker for Go `strings.ReplaceAll` (non-empty pattern, left-to-right,
non-overlapping). The first argument is fuel, always called with at least
the length of the subject so the `0` case is never reached. -/
def replaceAllCh (pat repl : List Char) : Nat → List Char → List Char
  | 0, s => s
  | _, [] => []
  | fuel + 1, c :: rest =>
    if pat ≠ [] ∧ pat.isPrefixOf (c :: rest) then
      repl ++ replaceAllCh pat repl fuel (List.drop (pat.length - 1) rest)
    else
      c :: replaceAllCh pat repl fuel rest

/-- Go `strings.ReplaceAll` for a non-empty pattern. -/
def goReplaceAll (s pat repl : String) : String :=
  ⟨replaceAllCh pat.data repl.data s.data.length s.data⟩

/-- Worker for Go `strings.Replace(s, old, new, 1)` (first occurrence only,
non-empty pattern). -/
def replaceFirstCh (pat repl : List Char) : List Char → List Char
  | [] => []
  | c :: rest =>
    if pat ≠ [] ∧ pat.isPrefixOf (c :: rest) then
      repl ++ List.drop (pat.length - 1) rest
    else
      c :: replaceFirstCh pat repl rest

/-- Go `strings.Replace(s, old, new, 1)` for a non-empty pattern. -/
def goReplaceFirst (s pat repl : String) : String :=
  ⟨replaceFirstCh pat.data repl.data s.data⟩

/-- Drop trailing `/` separators, as in the first loop of `filepath.Base`. -/
def dropTrailingSlashes (l : List Char) : List Char :=
  (l.reverse.dropWhile (fun c => c = '/')).reverse

/-- Keep everything after the last `/`. -/
def afterLastSlash (l : List Char) : List Char :=
  (l.reverse.takeWhile (fun c => c ≠ '/')).reverse

/-- Go `path/filepath.Base` (Unix separator). -/
def goBase (s : String) : String :=
  if s.data = [] then "."
  else
    let t := dropTrailingSlashes s.data
    if t = [] then "/" else ⟨afterLastSlash t⟩

/-- Go `path/filepath.Ext` (Unix separator): the suffix of the final element
starting at its last dot, or empty if there is none. -/
def goExt (s : String) : String :=
  let r := s.data.reverse
  let pre := r.takeWhile (fun c => c ≠ '.' ∧ c ≠ '/')
  match r.drop pre.length with
  | '.' :: _ => ⟨'.' :: pre.reverse⟩
  | _ => ""

/-! ## Data model: `config.App` (internal/config/config.go)

Field names follow the Go struct. Go `int` fields that the lifecycle compares
with `0` are `Int`; `Env` (a Go map) is an association list. -/

/-- The per-application configuration record `config.App`. Defaults are the Go
zero values of the struct fields. -/
structure App where
  Name : String := ""
  RunCmd : String := ""
  BuildCmd : String := ""
  Cmd : String := ""
  Bin : String := ""
  Args : List String := []
  WatchDir : String := ""
  TmpDir : String := ""
  Env : List (String × String) := []
  Delay : Int := 0
  KillDelay : String := ""
  Rerun : Bool := false
  RerunDelay : Int := 0
  ExcludeDir : List String := []
  ExcludeFile : List String := []
  ExcludeRegex : List String := []
  FollowSymlink : Bool := false
  PreCmd : List String := []
  PostCmd : List String := []
  SendInterrupt : Bool := false
  StopOnError : Bool := false
  LogSilent : Bool := false
  CleanOnExit : Bool := false
deriving DecidableEq, Inhabited

/-! ## Lifecycle Manager (internal/process/process.go)

`Manager`'s mutable fields (`cmd`, `running`, `tmpFiles`) are an explicit
state. `exec.Cmd` is modelled by `GoCmd`: its `Process` field is `none` until
`cmd.Start()` succeeds and then holds the child's pid. The ghost field
`live` tracks the pids of child processes the manager has spawned and that
have not yet exited; it exists only to state the at-most-one-live-process
invariant. Outcomes of the OS boundary (pipe creation, spawn, signal
delivery, graceful versus forced exit) are environment parameters. -/

/-- Model of `exec.Cmd`: `process` is `none` before `Start()` has succeeded
(Go `cmd.Process == nil`), otherwise the child pid. -/
structure GoCmd where
  process : Option Nat
deriving DecidableEq, Inhabited

/-- The mutable state of a `process.Manager`. -/
structure MState where
  running : Bool := false
  cmd : Option GoCmd := none
  tmpFiles : List String := []
  live : List Nat := []
deriving DecidableEq, Inhabited

/-- OS outcomes consumed by `Manager.Start`. -/
structure StartEnv where
  stdoutPipeOk : Bool := true
  stderrPipeOk : Bool := true
  spawnOk : Bool := true
  pid : Nat := 0
deriving DecidableEq, Inhabited

/-- OS outcomes consumed by `Manager.Stop` (which signal path was taken and
whether the child exited within the grace window). They do not influence the
resulting manager state. -/
structure StopEnv where
  pgidOk : Bool := true
  signalOk : Bool := true
  graceful : Bool := true
deriving DecidableEq, Inhabited

namespace Manager

/-- The zero `Manager` state produced by `process.NewManager`. -/
def init : MState := {}

/-- The run-command resolution at the top of `Manager.Start`: a fixed binary
path plus arguments, else the whitespace-split free-form run command, else
`none` (the "No run command specified, skipping" branch). -/
def startParts (app : App) : Option (List String) :=
  if app.Bin ≠ "" then some (app.Bin :: app.Args)
  else if app.RunCmd ≠ "" then some (goFields app.RunCmd)
  else none

/-- `Manager.Start` (process.go lines 192-266). Mirrors the source: the
already-running guard, run-command resolution, the assignment of a fresh
unstarted `exec.Cmd` to `m.cmd` before pipes are created, the three failure
exits, and on success the running flag, the started handle and the spawned
child. -/
def Start (app : App) (e : StartEnv) (s : MState) : Except String Unit × MState :=
  if s.running then (.error "process already running", s)
  else
    match startParts app with
    | none => (.ok (), s)
    | some cmdParts =>
      if cmdParts = [] then (.error "empty run command", s)
      else
        let s1 : MState := { s with cmd := some ⟨none⟩ }
        if ¬ e.stdoutPipeOk then (.error "failed to create stdout pipe", s1)
        else if ¬ e.stderrPipeOk then (.error "failed to create stderr pipe", s1)
        else if ¬ e.spawnOk then (.error "failed to start process", s1)
        else
          (.ok (),
            { s1 with
                cmd := some ⟨some e.pid⟩
                running := true
                live := e.pid :: s.live })

/-- `Manager.Stop` (process.go lines 268-321). The guard
`!m.running || m.cmd == nil || m.cmd.Process == nil` returns `nil` without
touching the state; otherwise the child is signalled, waited for (with
force-kill escalation on timeout, all reflected only in logs), and the state
is cleared. The exited child pid leaves `live`. The `StopEnv` outcomes never
change the result. -/
def Stop (app : App) (e : StopEnv) (s : MState) : Except String Unit × MState :=
  if ¬ s.running then (.ok (), s)
  else
    match s.cmd with
    | none => (.ok (), s)
    | some c =>
      match c.process with
      | none => (.ok (), s)
      | some p =>
        (.ok (), { s with running := false, cmd := none, live := s.live.erase p })

/-- The tail of the reaper goroutine spawned by `Manager.Start`
(process.go lines 250-262): once the started child with pid `p` exits,
clear the running flag and the handle. -/
def reap (s : MState) (p : Nat) : MState :=
  { s with running := false, cmd := none, live := s.live.erase p }

/-- `Manager.IsRunning` (process.go lines 361-365). -/
def IsRunning (s : MState) : Bool := s.running

end Manager

/-! ## `Manager.Restart` (process.go lines 43-132)

The restart sequence is serialized by the caller; it is embedded as a
function of the manager state and an environment giving the result of each
`runCommand` invocation (combined-output subprocess execution, at the OS
boundary: `none` means success, `some msg` the failure message),
the parse of the configured kill delay, and the `Start`/`Stop` outcomes.
The returned `List Action` records, in order, the externally visible steps
the sequence performed. -/

/-- One observable step of the restart sequence. -/
inductive Action where
  | stopped
  | sleptKill (d : Int)
  | ranPre (c : String)
  | ranBuild (c : String)
  | sleptRerun (d : Int)
  | ranPost (c : String)
  | sleptDelay (d : Int)
  | startCalled
deriving DecidableEq, Inhabited

/-- Environment of one `Restart` run. `cmdRes c` is the result of
`m.runCommand c`; `parseDur` is Go `time.ParseDuration`. -/
structure REnv where
  cmdRes : String → Option String
  parseDur : String → Option Int := fun _ => none
  startEnv : StartEnv := {}
  stopEnv : StopEnv := {}

namespace Manager

/-- The hook loops of `Restart` (pre-commands lines 61-71, post-commands
lines 104-114): each command is run in order; a failure aborts with a
wrapped error only when stop-on-error is set. Returns the actions performed
and the aborting error, if any. -/
def runHooks (cmdRes : String → Option String) (stopOnError : Bool)
    (label : String) (mk : String → Action) : List String → List Action × Option String
  | [] => ([], none)
  | c :: cs =>
    match cmdRes c with
    | some e =>
      if stopOnError then ([mk c], some (label ++ ": " ++ e))
      else
        let r := runHooks cmdRes stopOnError label mk cs
        (mk c :: r.1, r.2)
    | none =>
      let r := runHooks cmdRes stopOnError label mk cs
      (mk c :: r.1, r.2)

/-- The kill-delay sleep of `Restart` (lines 52-59): only when a kill delay
is configured, parses, and is positive. -/
def killSleepActs (app : App) (env : REnv) : List Action :=
  if app.KillDelay ≠ "" then
    match env.parseDur app.KillDelay with
    | some d => if 0 < d then [Action.sleptKill d] else []
    | none => []
  else []

/-- The effective build command (lines 73-76): `build_cmd`, falling back to
the `cmd` alias when `build_cmd` is empty. -/
def effectiveBuildCmd (app : App) : String :=
  if app.BuildCmd = "" ∧ app.Cmd ≠ "" then app.Cmd else app.BuildCmd

/-- The temp-file tracking after the build block (lines 99-101). -/
def tmpTrack (app : App) (s : MState) : MState :=
  if app.Bin ≠ "" ∧ app.CleanOnExit then { s with tmpFiles := s.tmpFiles ++ [app.Bin] }
  else s

/-- Final phase of `Restart` (lines 123-131): call `Start`; a start failure
propagates (wrapped when stop-on-error is set). -/
def startPhase (app : App) (env : REnv) (s : MState) (acts : List Action) :
    Except String Unit × MState × List Action :=
  let acts' := acts ++ [Action.startCalled]
  match Start app env.startEnv s with
  | (.error e, s') =>
    ((if app.StopOnError then .error ("failed to start: " ++ e) else .error e), s', acts')
  | (.ok _, s') => (.ok (), s', acts')

/-- Start-delay phase of `Restart` (lines 116-121). -/
def delayPhase (app : App) (env : REnv) (s : MState) (acts : List Action) :
    Except String Unit × MState × List Action :=
  startPhase app env s
    (acts ++ (if 0 < app.Delay then [Action.sleptDelay app.Delay] else []))

/-- Post-command phase of `Restart` (lines 104-114). -/
def postPhase (app : App) (env : REnv) (s : MState) (acts : List Action) :
    Except String Unit × MState × List Action :=
  match runHooks env.cmdRes app.StopOnError "post-command failed" Action.ranPost app.PostCmd with
  | (postActs, some err) => (.error err, s, acts ++ postActs)
  | (postActs, none) => delayPhase app env s (acts ++ postActs)

/-- Build phase of `Restart` (lines 78-102): run the effective build command
when non-empty; on failure, abort when rerun is disabled (wrapping the error
when stop-on-error is set), else sleep the rerun delay and continue; then
track the binary for cleanup. -/
def buildPhase (app : App) (env : REnv) (s : MState) (acts : List Action) :
    Except String Unit × MState × List Action :=
  let bc := effectiveBuildCmd app
  if bc = "" then postPhase app env s acts
  else
    let acts' := acts ++ [Action.ranBuild bc]
    match env.cmdRes bc with
    | some err =>
      if ¬ app.Rerun then
        ((if app.StopOnError then .error ("build failed: " ++ err) else .error err), s, acts')
      else
        postPhase app env (tmpTrack app s)
          (acts' ++ (if 0 < app.RerunDelay then [Action.sleptRerun app.RerunDelay] else []))
    | none => postPhase app env (tmpTrack app s) acts'

/-- `Manager.Restart` (lines 43-132): stop, kill-delay sleep, pre-commands,
build, post-commands, start delay, start. The `Stop` error is only logged. -/
def Restart (app : App) (env : REnv) (s : MState) :
    Except String Unit × MState × List Action :=
  let s1 := (Stop app env.stopEnv s).2
  let acts0 := Action.stopped :: killSleepActs app env
  match runHooks env.cmdRes app.StopOnError "pre-command failed" Action.ranPre app.PreCmd with
  | (preActs, some err) => (.error err, s1, acts0 ++ preActs)
  | (preActs, none) => buildPhase app env s1 (acts0 ++ preActs)

end Manager

/-! ## Serialized interleavings of the manager operations

Each manager's mutable state is guarded by its private mutex, and the
orchestrator's routing task serializes `Restart` calls; the possible
histories of one manager are therefore arbitrary sequences of the atomic
state transitions below, starting from the `NewManager` state. -/

/-- One serialized step on a manager's state: a `Start`, `Stop` or `Restart`
call with arbitrary OS outcomes, or the reaper goroutine firing after the
currently tracked started child exits. -/
inductive MStep (app : App) : MState → MState → Prop
  | start (e : StartEnv) (s : MState) : MStep app s (Manager.Start app e s).2
  | stop (e : StopEnv) (s : MState) : MStep app s (Manager.Stop app e s).2
  | reap (s : MState) (p : Nat) :
      s.running = true → s.cmd = some ⟨some p⟩ → MStep app s (Manager.reap s p)
  | restart (env : REnv) (s : MState) : MStep app s (Manager.Restart app env s).2.1

/-- The manager states reachable from the `NewManager` state. -/
def MReachable (app : App) (s : MState) : Prop :=
  Relation.ReflTransGen (MStep app) Manager.init s

/-- State invariant of one manager: when the running flag is set, the
tracked handle is a started process and it is the only live child; when it
is clear, no child of this manager is alive. -/
def MInv (s : MState) : Prop :=
  (s.running = true → ∃ p, s.cmd = some ⟨some p⟩ ∧ s.live = [p]) ∧
  (s.running = false → s.live = [])

theorem minv_init : MInv Manager.init := by
  constructor
  · intro h
    simp [Manager.init] at h
  · intro _
    rfl

theorem minv_start (app : App) (e : StartEnv) (s : MState) (h : MInv s) :
    MInv (Manager.Start app e s).2 := by
  obtain ⟨h1, h2⟩ := h
  unfold Manager.Start
  split
  · exact ⟨h1, h2⟩
  next hr =>
    have hrf : s.running = false := by
      cases hb : s.running
      · rfl
      · exact absurd hb hr
    split
    · exact ⟨h1, h2⟩
    split
    · exact ⟨h1, h2⟩
    split
    · exact ⟨fun hx => absurd (hrf ▸ hx) (by simp), fun _ => h2 hrf⟩
    split
    · exact ⟨fun hx => absurd (hrf ▸ hx) (by simp), fun _ => h2 hrf⟩
    split
    · exact ⟨fun hx => absurd (hrf ▸ hx) (by simp), fun _ => h2 hrf⟩
    refine ⟨fun _ => ⟨e.pid, rfl, ?_⟩, fun hx => by simp at hx⟩
    simp [h2 hrf]

theorem minv_stop (app : App) (e : StopEnv) (s : MState) (h : MInv s) :
    MInv (Manager.Stop app e s).2 := by
  obtain ⟨h1, h2⟩ := h
  unfold Manager.Stop
  split
  · exact ⟨h1, h2⟩
  next hr =>
    have hrt : s.running = true := by
      cases hb : s.running
      · exact absurd (by simp [hb]) hr
      · rfl
    split
    · exact ⟨h1, h2⟩
    next c hc =>
      split
      · exact ⟨h1, h2⟩
      next p hp =>
        obtain ⟨q, hq, hlive⟩ := h1 hrt
        have hcq : c = ⟨some q⟩ := by
          rw [hc] at hq
          exact Option.some.inj hq
        have hpq : p = q := by
          have := congrArg GoCmd.process hcq
          rw [hp] at this
          exact Option.some.inj this
        refine ⟨fun hx => by simp at hx, fun _ => ?_⟩
        simp [hlive, hpq, List.erase_cons]

theorem minv_reap (s : MState) (p : Nat) (hr : s.running = true)
    (hc : s.cmd = some ⟨some p⟩) (h : MInv s) : MInv (Manager.reap s p) := by
  obtain ⟨h1, h2⟩ := h
  obtain ⟨q, hq, hlive⟩ := h1 hr
  have hpq : p = q := by
    rw [hc] at hq
    have := congrArg GoCmd.process (Option.some.inj hq)
    exact Option.some.inj this
  refine ⟨fun hx => by simp [Manager.reap] at hx, fun _ => ?_⟩
  simp [Manager.reap, hlive, hpq, List.erase_cons]

theorem minv_tmpTrack (app : App) (s : MState) (h : MInv s) :
    MInv (Manager.tmpTrack app s) := by
  obtain ⟨h1, h2⟩ := h
  unfold Manager.tmpTrack
  split
  · exact ⟨h1, h2⟩
  · exact ⟨h1, h2⟩

theorem minv_startPhase (app : App) (env : REnv) (s : MState) (acts : List Action)
    (h : MInv s) : MInv (Manager.startPhase app env s acts).2.1 := by
  unfold Manager.startPhase
  have hs := minv_start app env.startEnv s h
  split
  next e s' heq =>
    rw [heq] at hs
    exact hs
  next s' heq =>
    rw [heq] at hs
    exact hs

theorem minv_delayPhase (app : App) (env : REnv) (s : MState) (acts : List Action)
    (h : MInv s) : MInv (Manager.delayPhase app env s acts).2.1 :=
  minv_startPhase app env s _ h

theorem minv_postPhase (app : App) (env : REnv) (s : MState) (acts : List Action)
    (h : MInv s) : MInv (Manager.postPhase app env s acts).2.1 := by
  unfold Manager.postPhase
  split
  · exact h
  · exact minv_delayPhase app env s _ h

theorem minv_buildPhase (app : App) (env : REnv) (s : MState) (acts : List Action)
    (h : MInv s) : MInv (Manager.buildPhase app env s acts).2.1 := by
  unfold Manager.buildPhase
  dsimp only
  by_cases hbc : Manager.effectiveBuildCmd app = ""
  · rw [if_pos hbc]
    exact minv_postPhase app env s acts h
  · rw [if_neg hbc]
    rcases hres : env.cmdRes (Manager.effectiveBuildCmd app) with _ | err
    · dsimp only
      exact minv_postPhase app env _ _ (minv_tmpTrack app s h)
    · dsimp only
      by_cases hr : app.Rerun = true
      · rw [if_neg (by simp [hr])]
        exact minv_postPhase app env _ _ (minv_tmpTrack app s h)
      · rw [if_pos (by simp [hr])]
        exact h

theorem minv_restart (app : App) (env : REnv) (s : MState) (h : MInv s) :
    MInv (Manager.Restart app env s).2.1 := by
  unfold Manager.Restart
  have hs := minv_stop app env.stopEnv s h
  split
  · exact hs
  · exact minv_buildPhase app env _ _ hs

theorem minv_mstep (app : App) (s s' : MState) (hstep : MStep app s s')
    (h : MInv s) : MInv s' := by
  cases hstep with
  | start e s => exact minv_start app e s h
  | stop e s => exact minv_stop app e s h
  | reap s p hr hc => exact minv_reap s p hr hc h
  | restart env s => exact minv_restart app env s h

theorem minv_reachable (app : App) (s : MState) (h : MReachable app s) : MInv s := by
  induction h with
  | refl => exact minv_init
  | tail _ hstep ih => exact minv_mstep app _ _ hstep ih

/-! ## Claims C1, C3, C10 about the Lifecycle Manager -/

/-- A demonstration application spec with a binary run specification. -/
def appDemo : App := { Bin := "/tmp/demo", Args := ["-v"] }

/-- A start environment in which the OS spawn fails. -/
def spawnFailEnv : StartEnv := { spawnOk := false }

/-- C1 (amended): on every reachable manager state, at most one live child
process is tracked; `Start()` fails with the already-running error and leaves
the state unchanged whenever the running flag is set; `Stop()` always returns
with the running flag false, and whenever a process is tracked as running it
clears both the flag and the handle. (The original claim's stronger clause
that every path through `Stop()` clears the handle fails on the no-op path
after an unsuccessful spawn; see the counterexample.) -/
theorem manager_tracking_invariant (app : App) (s : MState) (h : MReachable app s)
    (e : StartEnv) (e' : StopEnv) :
    s.live.length ≤ 1 ∧
    (s.running = true → Manager.Start app e s = (.error "process already running", s)) ∧
    (Manager.Stop app e' s).2.running = false ∧
    (s.running = true → (Manager.Stop app e' s).2.cmd = none) := by
  obtain ⟨h1, h2⟩ := minv_reachable app s h
  refine ⟨?_, ?_, ?_, ?_⟩
  · cases hb : s.running
    · simp [h2 hb]
    · obtain ⟨p, _, hl⟩ := h1 hb
      simp [hl]
  · intro hb
    simp [Manager.Start, hb]
  · cases hb : s.running
    · simp [Manager.Stop, hb]
    · obtain ⟨p, hc, _⟩ := h1 hb
      simp [Manager.Stop, hb, hc]
  · intro hb
    obtain ⟨p, hc, _⟩ := h1 hb
    simp [Manager.Stop, hb, hc]

/-- Witness for C1: the state after one successful `Start` from the fresh
manager is reachable, and the invariant theorem holds there. -/
theorem manager_tracking_invariant_witness :
    MReachable appDemo (Manager.Start appDemo {} Manager.init).2 ∧
    ((Manager.Start appDemo {} Manager.init).2.live.length ≤ 1 ∧
     ((Manager.Start appDemo {} Manager.init).2.running = true →
       Manager.Start appDemo {} (Manager.Start appDemo {} Manager.init).2 =
         (.error "process already running", (Manager.Start appDemo {} Manager.init).2)) ∧
     (Manager.Stop appDemo {} (Manager.Start appDemo {} Manager.init).2).2.running = false ∧
     ((Manager.Start appDemo {} Manager.init).2.running = true →
       (Manager.Stop appDemo {} (Manager.Start appDemo {} Manager.init).2).2.cmd = none)) :=
  have h : MReachable appDemo (Manager.Start appDemo {} Manager.init).2 :=
    Relation.ReflTransGen.single (MStep.start {} Manager.init)
  ⟨h, manager_tracking_invariant appDemo _ h {} {}⟩

/-- Counterexample for C1 as stated: after a failed spawn the manager is in a
reachable state with the running flag clear but the handle still set, and
`Stop()` returns through its no-op path without clearing that handle. -/
theorem stop_keeps_stale_handle :
    (Manager.Start appDemo spawnFailEnv Manager.init).2.running = false ∧
    (Manager.Start appDemo spawnFailEnv Manager.init).2.cmd = some ⟨none⟩ ∧
    MReachable appDemo (Manager.Start appDemo spawnFailEnv Manager.init).2 ∧
    (Manager.Stop appDemo {} (Manager.Start appDemo spawnFailEnv Manager.init).2).2.cmd
      = some ⟨none⟩ :=
  ⟨by decide, by decide,
   Relation.ReflTransGen.single (MStep.start spawnFailEnv Manager.init), by decide⟩

/-- C3: `Stop()` never returns an error; on a reachable state where nothing
is tracked as running it is a no-op, and where a process is tracked as
running it returns success with the running flag cleared and the handle
absent, for every signalling/grace/force-kill outcome. -/
theorem stop_total_and_clears (app : App) (e : StopEnv) (s : MState)
    (h : MReachable app s) :
    (Manager.Stop app e s).1 = .ok () ∧
    (s.running = false → (Manager.Stop app e s).2 = s) ∧
    (s.running = true →
      (Manager.Stop app e s).2.running = false ∧ (Manager.Stop app e s).2.cmd = none) := by
  obtain ⟨h1, _⟩ := minv_reachable app s h
  refine ⟨?_, ?_, ?_⟩
  · unfold Manager.Stop
    split
    · rfl
    · split
      · rfl
      · split
        · rfl
        · rfl
  · intro hb
    simp [Manager.Stop, hb]
  · intro hb
    obtain ⟨p, hc, _⟩ := h1 hb
    simp [Manager.Stop, hb, hc]

/-- Witness for C3 at the state reached by one successful `Start`. -/
theorem stop_total_and_clears_witness :
    (Manager.Stop appDemo {} (Manager.Start appDemo {} Manager.init).2).1 = .ok () ∧
    ((Manager.Start appDemo {} Manager.init).2.running = false →
      (Manager.Stop appDemo {} (Manager.Start appDemo {} Manager.init).2).2 =
        (Manager.Start appDemo {} Manager.init).2) ∧
    ((Manager.Start appDemo {} Manager.init).2.running = true →
      (Manager.Stop appDemo {} (Manager.Start appDemo {} Manager.init).2).2.running = false ∧
      (Manager.Stop appDemo {} (Manager.Start appDemo {} Manager.init).2).2.cmd = none) :=
  stop_total_and_clears appDemo {} _
    (Relation.ReflTransGen.single (MStep.start {} Manager.init))

/-- C10: `Start()` on a manager whose spec has neither a binary path nor a
run-command string returns success without launching anything: the state is
unchanged and `IsRunning` stays false. -/
theorem start_no_run_command (app : App) (e : StartEnv) (s : MState)
    (hb : app.Bin = "") (hr : app.RunCmd = "") (hrun : s.running = false) :
    Manager.Start app e s = (.ok (), s) ∧
    Manager.IsRunning (Manager.Start app e s).2 = false := by
  have hparts : Manager.startParts app = none := by
    simp [Manager.startParts, hb, hr]
  have hmain : Manager.Start app e s = (.ok (), s) := by
    simp [Manager.Start, hrun, hparts]
  exact ⟨hmain, by rw [hmain]; exact hrun⟩

/-- Witness for C10: the empty application spec on a fresh manager. -/
theorem start_no_run_command_witness :
    Manager.Start {} {} Manager.init = (.ok (), Manager.init) ∧
    Manager.IsRunning (Manager.Start {} {} Manager.init).2 = false :=
  start_no_run_command {} {} Manager.init rfl rfl rfl

/-! ## Claim C2: the build-failure paths of `Restart` -/

theorem runHooks_no_abort (f : String → Option String) (label : String)
    (mk : String → Action) (cs : List String) :
    (Manager.runHooks f false label mk cs).2 = none := by
  induction cs with
  | nil => rfl
  | cons c cs ih =>
    unfold Manager.runHooks
    cases f c <;> simpa using ih

theorem runHooks_acts_shape (f : String → Option String) (so : Bool) (label : String)
    (mk : String → Action) (cs : List String) :
    ∀ a ∈ (Manager.runHooks f so label mk cs).1, ∃ c, a = mk c := by
  induction cs with
  | nil =>
    intro a ha
    simp [Manager.runHooks] at ha
  | cons c cs ih =>
    intro a ha
    unfold Manager.runHooks at ha
    cases hf : f c
    · rw [hf] at ha
      dsimp only at ha
      rcases List.mem_cons.mp ha with h | h
      · exact ⟨c, h⟩
      · exact ih a h
    · rw [hf] at ha
      dsimp only at ha
      by_cases hso : so = true
      · rw [if_pos hso] at ha
        rcases List.mem_cons.mp ha with h | h
        · exact ⟨c, h⟩
        · simp at h
      · rw [if_neg hso] at ha
        rcases List.mem_cons.mp ha with h | h
        · exact ⟨c, h⟩
        · exact ih a h

theorem startCalled_not_mem_killSleep (app : App) (env : REnv) :
    Action.startCalled ∉ Manager.killSleepActs app env := by
  unfold Manager.killSleepActs
  split
  · split
    · split
      · simp
      · simp
    · simp
  · simp

theorem startPhase_acts (app : App) (env : REnv) (s : MState) (acts : List Action) :
    (Manager.startPhase app env s acts).2.2 = acts ++ [Action.startCalled] := by
  unfold Manager.startPhase
  split
  · rfl
  · rfl

theorem delayPhase_mem_startCalled (app : App) (env : REnv) (s : MState)
    (acts : List Action) : Action.startCalled ∈ (Manager.delayPhase app env s acts).2.2 := by
  unfold Manager.delayPhase
  rw [startPhase_acts]
  simp

theorem delayPhase_mem_mono (app : App) (env : REnv) (s : MState)
    (acts : List Action) (x : Action) (hx : x ∈ acts) :
    x ∈ (Manager.delayPhase app env s acts).2.2 := by
  unfold Manager.delayPhase
  rw [startPhase_acts]
  exact List.mem_append_left _ (List.mem_append_left _ hx)

theorem postPhase_mem_startCalled (app : App) (env : REnv) (s : MState)
    (acts : List Action) (hso : app.StopOnError = false) :
    Action.startCalled ∈ (Manager.postPhase app env s acts).2.2 := by
  unfold Manager.postPhase
  rw [hso]
  rcases hrh : Manager.runHooks env.cmdRes false "post-command failed" Action.ranPost
      app.PostCmd with ⟨postActs, r⟩
  have hr : r = none := by
    have := runHooks_no_abort env.cmdRes "post-command failed" Action.ranPost app.PostCmd
    rw [hrh] at this
    exact this
  subst hr
  exact delayPhase_mem_startCalled app env s _

theorem postPhase_mem_mono (app : App) (env : REnv) (s : MState)
    (acts : List Action) (x : Action) (hx : x ∈ acts) :
    x ∈ (Manager.postPhase app env s acts).2.2 := by
  unfold Manager.postPhase
  rcases hrh : Manager.runHooks env.cmdRes app.StopOnError "post-command failed"
      Action.ranPost app.PostCmd with ⟨postActs, r⟩
  cases r
  · exact delayPhase_mem_mono app env s _ x (List.mem_append_left _ hx)
  · exact List.mem_append_left _ hx

/-- C2: with stop-on-error disabled and the effective build command failing,
`Restart()` with rerun disabled returns the build error and never reaches the
start step, while with rerun enabled it records the rerun-delay sleep (when
the configured delay is positive) and still reaches the start step. -/
theorem restart_build_failure_semantics (app : App) (env : REnv) (s : MState)
    (hso : app.StopOnError = false) (hbc : Manager.effectiveBuildCmd app ≠ "")
    (msg : String) (hfail : env.cmdRes (Manager.effectiveBuildCmd app) = some msg) :
    (app.Rerun = false →
      (Manager.Restart app env s).1 = .error msg ∧
      Action.startCalled ∉ (Manager.Restart app env s).2.2) ∧
    (app.Rerun = true →
      Action.startCalled ∈ (Manager.Restart app env s).2.2 ∧
      (0 < app.RerunDelay →
        Action.sleptRerun app.RerunDelay ∈ (Manager.Restart app env s).2.2)) := by
  unfold Manager.Restart
  rw [hso]
  rcases hpre : Manager.runHooks env.cmdRes false "pre-command failed" Action.ranPre
      app.PreCmd with ⟨preActs, r⟩
  have hr : r = none := by
    have := runHooks_no_abort env.cmdRes "pre-command failed" Action.ranPre app.PreCmd
    rw [hpre] at this
    exact this
  subst hr
  dsimp only
  unfold Manager.buildPhase
  rw [if_neg hbc, hfail, hso]
  dsimp only
  constructor
  · intro hrr
    rw [hrr, if_pos (by simp)]
    refine ⟨rfl, ?_⟩
    intro hmem
    rcases List.mem_append.mp hmem with h | h
    · rcases List.mem_append.mp h with h' | h'
      · rcases List.mem_cons.mp h' with h'' | h''
        · exact absurd h'' (by simp)
        · exact startCalled_not_mem_killSleep app env h''
      · obtain ⟨c, hc⟩ := runHooks_acts_shape env.cmdRes false "pre-command failed"
          Action.ranPre app.PreCmd _ (by rw [hpre]; exact h')
        simp at hc
    · simp at h
  · intro hrr
    rw [hrr, if_neg (by simp)]
    refine ⟨postPhase_mem_startCalled app env _ _ hso, ?_⟩
    intro hd
    refine postPhase_mem_mono app env _ _ _ ?_
    rw [if_pos hd]
    simp

/-- A spec whose build fails, with rerun disabled. -/
def appBuildNoRerun : App := { BuildCmd := "make", Rerun := false }

/-- A spec whose build fails, with rerun enabled and a positive rerun delay. -/
def appBuildRerun : App := { BuildCmd := "make", Rerun := true, RerunDelay := 500 }

/-- An environment in which the `make` build command fails. -/
def buildFailREnv : REnv := { cmdRes := fun c => if c = "make" then some "boom" else none }

/-- Witness for C2: both build-failure paths evaluated on concrete specs. -/
theorem restart_build_failure_semantics_witness :
    ((Manager.Restart appBuildNoRerun buildFailREnv Manager.init).1 = .error "boom" ∧
     Action.startCalled ∉ (Manager.Restart appBuildNoRerun buildFailREnv Manager.init).2.2) ∧
    (Action.startCalled ∈ (Manager.Restart appBuildRerun buildFailREnv Manager.init).2.2 ∧
     Action.sleptRerun 500 ∈ (Manager.Restart appBuildRerun buildFailREnv Manager.init).2.2) :=
  ⟨(restart_build_failure_semantics appBuildNoRerun buildFailREnv Manager.init rfl
      (by decide) "boom" rfl).1 rfl,
   ⟨((restart_build_failure_semantics appBuildRerun buildFailREnv Manager.init rfl
      (by decide) "boom" rfl).2 rfl).1,
    ((restart_build_failure_semantics appBuildRerun buildFailREnv Manager.init rfl
      (by decide) "boom" rfl).2 rfl).2 (by decide)⟩⟩

/-! ## Debounced Directory Watcher (internal/watcher/watcher.go)

Compiled exclude matchers are abstract predicates: a glob entry of
`excludeFiles` models `filepath.Match(pattern, base)` for one configured
pattern, a regex entry of `excludeRegex` models `re.MatchString(path)` for
one compiled pattern. fsnotify operation masks are the library's bit
values. -/

/-- fsnotify `Op` bit for `Create`. -/
def fsnotifyCreate : Nat := 1

/-- fsnotify `Op` bit for `Chmod`. -/
def fsnotifyChmod : Nat := 16

/-- A raw fsnotify event: full path and operation mask. -/
structure WEvent where
  name : String
  op : Nat
deriving DecidableEq, Inhabited

/-- The watcher configuration. `ignoreDirs` is the built-in ignore set from
`watcher.New`; `excludeDirs`, `excludeFiles`, `excludeRegex` come from
`SetExcludes`; `followSymlink` from `SetFollowSymlink`. -/
structure WatcherM where
  debounceTime : Nat := 300
  ignoreDirs : List String :=
    ["tmp", ".tmp", "vendor", ".git", ".idea", ".vscode",
     "node_modules", "dist", "build", ".next", ".nuxt"]
  excludeDirs : List String := []
  excludeFiles : List (String → Bool) := []
  excludeRegex : List (String → Bool) := []
  followSymlink : Bool := false

namespace Watcher

/-- `Watcher.shouldIgnore` (watcher.go lines 162-188): hidden directories
(base starting with `.` other than `.`/`..`), the built-in ignore set, the
configured exclude directories (by base name or as a `/name/` path segment),
and the configured exclude regexes. -/
def shouldIgnore (w : WatcherM) (path : String) : Bool :=
  let base := goBase path
  if goStartsWith base "." ∧ base ≠ "." ∧ base ≠ ".." then true
  else if w.ignoreDirs.any (fun d => base = d) then true
  else if w.excludeDirs.any (fun d => base = d || goContains path ("/" ++ d ++ "/")) then true
  else if w.excludeRegex.any (fun m => m path) then true
  else false

/-- `Watcher.shouldSkipEvent` (watcher.go lines 190-224), the filter applied
before an event reaches the debounce timer. -/
def shouldSkipEvent (w : WatcherM) (event : WEvent) : Bool :=
  if event.op = fsnotifyChmod then true
  else
    let base := goBase event.name
    let ext := goExt event.name
    if goEndsWith base "~" || goStartsWith base ".#" then true
    else if ext = ".swp" ∨ ext = ".swo" ∨ ext = ".swx" then true
    else if goContains event.name "test.test" then true
    else if w.excludeFiles.any (fun m => m base) then true
    else if w.excludeRegex.any (fun m => m event.name) then true
    else false

/-! ### The debounce loop (`Watcher.run`, watcher.go lines 104-160)

The loop state is the pending timer, here its firing deadline. Each
qualifying event stops any pending timer and arms a fresh one for
`debounceTime` after the event; a timer whose deadline passes before the
next event (or before shutdown) fires and emits one coalesced signal. The
count below assumes the single-slot events channel is drained between
firings (as the orchestrator's routing task does), so every firing is an
emitted signal. -/

/-- Number of coalesced signals emitted by the event loop, given the pending
timer deadline and the arrival times of the remaining qualifying events, in
non-decreasing order. -/
def runLoopCount (D : Nat) : Option Nat → List Nat → Nat
  | pending, [] =>
    match pending with
    | some _ => 1
    | none => 0
  | pending, t :: ts =>
    (match pending with
     | some dl => if dl ≤ t then 1 else 0
     | none => 0) + runLoopCount D (some (t + D)) ts

/-- Coalesced signals emitted for a full sequence of qualifying events. -/
def debouncedSignals (D : Nat) (ts : List Nat) : Nat := runLoopCount D none ts

end Watcher

/-! ### `Watcher.Watch` (watcher.go lines 68-93)

`filepath.Walk` over a directory tree, registering every directory that is
not skipped by `shouldIgnore` (whose subtree is then not descended). `Walk`
uses `lstat`: a symbolic link is reported as a link, never as a directory,
so it is neither registered nor descended — independently of the
`followSymlink` flag, which no code reads. A symlink node carries the
subtree its target would expose, to express what following it would see. -/

/-- A directory tree entry as seen by `filepath.Walk` via `lstat`. -/
inductive FSNode where
  | dir (name : String) (children : List FSNode)
  | file (name : String)
  | symlink (name : String) (target : List FSNode)

/-- The name of a tree entry. -/
def FSNode.entryName : FSNode → String
  | .dir n _ => n
  | .file n => n
  | .symlink n _ => n

mutual

/-- The directories registered by the `filepath.Walk` closure of
`Watcher.Watch`, for the entry at path `path`. -/
def watchFrom (w : WatcherM) (path : String) : FSNode → List String
  | .dir _ children =>
    if Watcher.shouldIgnore w path then [] else path :: watchList w path children
  | .file _ => []
  | .symlink _ _ => []

/-- Walk of the children of a directory at path `parent`. -/
def watchList (w : WatcherM) (parent : String) : List FSNode → List String
  | [] => []
  | n :: ns => watchFrom w (parent ++ "/" ++ n.entryName) n ++ watchList w parent ns

end

/-! ## Claim C4: debounce coalescing -/

theorem runLoop_burst (D : Nat) (ts : List Nat) :
    ∀ t : Nat, List.Chain' (fun a b => a ≤ b ∧ b < a + D) (t :: ts) →
      Watcher.runLoopCount D (some (t + D)) ts = 1 := by
  induction ts with
  | nil =>
    intro t _
    rfl
  | cons t' rest ih =>
    intro t h
    rw [List.chain'_cons] at h
    obtain ⟨⟨hle, hlt⟩, htail⟩ := h
    unfold Watcher.runLoopCount
    dsimp only
    rw [if_neg (by omega)]
    simpa using ih t' htail

theorem runLoop_spaced (D : Nat) (ts : List Nat) :
    ∀ t : Nat, List.Chain' (fun a b => a + D < b) (t :: ts) →
      Watcher.runLoopCount D (some (t + D)) ts = ts.length + 1 := by
  induction ts with
  | nil =>
    intro t _
    rfl
  | cons t' rest ih =>
    intro t h
    rw [List.chain'_cons] at h
    obtain ⟨hlt, htail⟩ := h
    unfold Watcher.runLoopCount
    dsimp only
    rw [if_pos (by omega)]
    rw [ih t' htail]
    simp [Nat.add_comm]

/-- C4: a non-empty run of qualifying events whose consecutive gaps are all
below the debounce window emits exactly one coalesced signal, after the last
event; a run whose consecutive gaps all exceed the window emits one signal
per event. -/
theorem debounce_coalescing (D t : Nat) (ts : List Nat) :
    (List.Chain' (fun a b => a ≤ b ∧ b < a + D) (t :: ts) →
      Watcher.debouncedSignals D (t :: ts) = 1) ∧
    (List.Chain' (fun a b => a + D < b) (t :: ts) →
      Watcher.debouncedSignals D (t :: ts) = (t :: ts).length) := by
  constructor
  · intro h
    unfold Watcher.debouncedSignals Watcher.runLoopCount
    dsimp only
    rw [runLoop_burst D ts t h]
  · intro h
    unfold Watcher.debouncedSignals Watcher.runLoopCount
    dsimp only
    rw [runLoop_spaced D ts t h]
    simp

/-- Witness for C4: three events inside one 300-unit window coalesce to one
signal; three events spaced beyond the window emit three. -/
theorem debounce_coalescing_witness :
    Watcher.debouncedSignals 300 [0, 10, 20] = 1 ∧
    Watcher.debouncedSignals 300 [0, 400, 800] = 3 :=
  ⟨(debounce_coalescing 300 0 [10, 20]).1 (by norm_num [List.chain'_cons]),
   (debounce_coalescing 300 0 [400, 800]).2 (by norm_num [List.chain'_cons])⟩

/-! ## Claims C5 and C9: the pre-debounce event filter -/

/-- The default watcher, with no excludes configured. -/
def wNoExcludes : WatcherM := {}

/-- A write event on a path containing `test.test` that matches none of the
filter conditions the spec lists. -/
def evTestTest : WEvent := { name := "a/test.test", op := 1 }

/-- Counterexample for C5 as stated: `evTestTest` is not a chmod event, has
no editor temp-file name pattern, and matches no configured glob or regex
(none are configured), yet `shouldSkipEvent` filters it out. -/
theorem skip_filter_undocumented_test_test :
    evTestTest.op ≠ fsnotifyChmod ∧
    goEndsWith (goBase evTestTest.name) "~" = false ∧
    goStartsWith (goBase evTestTest.name) ".#" = false ∧
    goExt evTestTest.name ≠ ".swp" ∧
    goExt evTestTest.name ≠ ".swo" ∧
    goExt evTestTest.name ≠ ".swx" ∧
    wNoExcludes.excludeFiles = [] ∧
    wNoExcludes.excludeRegex = [] ∧
    Watcher.shouldSkipEvent wNoExcludes evTestTest = true :=
  ⟨by decide, by decide, by decide, by decide, by decide, by decide, rfl, rfl, by decide⟩

/-- C5 (amended): an event is filtered out before the debounce timer exactly
when it is a chmod-only event, its base name ends in `~` or starts with
`.#`, its extension is `.swp`/`.swo`/`.swx`, its full path contains the
substring `test.test`, its base name matches a configured exclude file glob,
or its full path matches a configured exclude regex. -/
theorem shouldSkipEvent_characterization (w : WatcherM) (e : WEvent) :
    Watcher.shouldSkipEvent w e = true ↔
      (e.op = fsnotifyChmod ∨
       goEndsWith (goBase e.name) "~" = true ∨
       goStartsWith (goBase e.name) ".#" = true ∨
       goExt e.name = ".swp" ∨ goExt e.name = ".swo" ∨ goExt e.name = ".swx" ∨
       goContains e.name "test.test" = true ∨
       w.excludeFiles.any (fun m => m (goBase e.name)) = true ∨
       w.excludeRegex.any (fun m => m e.name) = true) := by
  unfold Watcher.shouldSkipEvent
  dsimp only
  split_ifs with h1 h2 h3 h4 h5 h6 <;> simp_all <;> tauto

/-- C9: every event whose full path contains the substring `test.test` is
filtered out before the debounce timer, whatever excludes are configured. -/
theorem test_test_always_filtered (w : WatcherM) (e : WEvent)
    (h : goContains e.name "test.test" = true) :
    Watcher.shouldSkipEvent w e = true := by
  unfold Watcher.shouldSkipEvent
  dsimp only
  split_ifs <;> simp_all

/-- Witness for C9: a go test binary path under a watcher with a configured
glob that does not match it. -/
theorem test_test_always_filtered_witness :
    Watcher.shouldSkipEvent
      { wNoExcludes with excludeFiles := [fun s => s = "x.log"] }
      { name := "pkg/test.test", op := 2 } = true :=
  test_test_always_filtered _ _ (by decide)

/-! ## Claim C6: the follow-symlink flag -/

mutual

theorem watchFrom_flag_eq (w : WatcherM) (b : Bool) (path : String) :
    ∀ t : FSNode, watchFrom { w with followSymlink := b } path t = watchFrom w path t
  | .dir n cs => by
    unfold watchFrom
    have hig : Watcher.shouldIgnore { w with followSymlink := b } path
        = Watcher.shouldIgnore w path := rfl
    rw [hig]
    split
    · rfl
    · rw [watchList_flag_eq w b path cs]
  | .file n => rfl
  | .symlink n t => rfl

theorem watchList_flag_eq (w : WatcherM) (b : Bool) (parent : String) :
    ∀ ns : List FSNode,
      watchList { w with followSymlink := b } parent ns = watchList w parent ns
  | [] => rfl
  | n :: ns => by
    unfold watchList
    rw [watchFrom_flag_eq w b _ n, watchList_flag_eq w b parent ns]

end

/-- A watch root containing a symbolic link to a directory subtree and one
plain subdirectory. -/
def symTree : FSNode := .dir "r" [.symlink "link" [.dir "sub" []], .dir "real" []]

/-- The watcher with the follow-symlink flag set. -/
def wFollow : WatcherM := { followSymlink := true }

/-- C6 (code bug): `SetFollowSymlink` stores a flag no other code reads —
registration by `Watch` is identical for every value of the flag, and even
with the flag set a symlinked directory is neither registered nor descended. -/
theorem followSymlink_flag_unused :
    (∀ (w : WatcherM) (b : Bool) (path : String) (t : FSNode),
      watchFrom { w with followSymlink := b } path t = watchFrom w path t) ∧
    watchFrom wFollow "/r" symTree = ["/r", "/r/real"] ∧
    "/r/link" ∉ watchFrom wFollow "/r" symTree ∧
    "/r/link/sub" ∉ watchFrom wFollow "/r" symTree :=
  ⟨fun w b path t => watchFrom_flag_eq w b path t, by decide, by decide, by decide⟩

/-! ## Ephemeral session workspace (internal/session) -/

namespace Session

/-- One lowercase hexadecimal digit, as printed by Go's `%x`. -/
def hexDigit (n : Nat) : Char :=
  if n < 10 then Char.ofNat (48 + n) else Char.ofNat (87 + n)

/-- Go `fmt.Sprintf("%08x", b)` of the four random bytes read by
`generateSessionID`: eight lowercase hex digits, most significant first. -/
def generateSessionID (b : Nat) : String :=
  ⟨(List.range 8).map (fun i => hexDigit (b % 2 ^ 32 / 16 ^ (7 - i) % 16))⟩

/-- `session.GenerateSessionDir`, with the four random bytes as parameter:
`filepath.Join("/tmp", "wisp", sessionID)`, which for the clean non-empty
session id is `"/tmp/wisp/" ++ sessionID`. The `os.MkdirAll` side effect is
the caller's one directory creation. -/
def GenerateSessionDir (b : Nat) : String :=
  "/tmp/wisp/" ++ generateSessionID b

/-- `session.CleanupSessionDir`: `.ok none` means nothing is removed,
`.ok (some d)` means `os.RemoveAll(d)` — removal of the entire directory
tree `d` — and `.error` is the safety-check failure for paths outside
`/tmp/wisp/`. -/
def CleanupSessionDir (dir : String) : Except String (Option String) :=
  if dir = "" then .ok none
  else if ¬ goStartsWith dir "/tmp/wisp/" then
    .error ("invalid session directory path: " ++ dir)
  else .ok (some dir)

end Session

/-! ## Orchestrator (internal/runner/runner.go) -/

/-- `Runner.translatePaths` (runner.go lines 242-264): substitute the session
directory for the `./tmp/` prefix inside the build command, the `cmd` alias,
the binary path and the temp directory of one application copy. -/
def translatePaths (sessionDir : String) (app : App) : App :=
  if sessionDir = "" then app
  else
    let app1 :=
      if goContains app.Cmd "./tmp/" then
        { app with Cmd := goReplaceAll app.Cmd "./tmp/" (sessionDir ++ "/") }
      else app
    let app2 :=
      if goContains app1.BuildCmd "./tmp/" then
        { app1 with BuildCmd := goReplaceAll app1.BuildCmd "./tmp/" (sessionDir ++ "/") }
      else app1
    let app3 :=
      if goStartsWith app2.Bin "./tmp/" then
        { app2 with Bin := goReplaceFirst app2.Bin "./tmp/" (sessionDir ++ "/") }
      else app2
    if app3.TmpDir = "./tmp" then { app3 with TmpDir := sessionDir } else app3

/-- `Runner.cleanupSessionDirectories` (runner.go lines 266-275), called at
the end of `Shutdown`: clean up the session directory when one was created. -/
def cleanupSessionDirectories (sessionDir : String) :
    Option (Except String (Option String)) :=
  if sessionDir ≠ "" then some (Session.CleanupSessionDir sessionDir) else none

/-- The validated configuration: Go's `map[string]*App` as an association
list. -/
structure RunnerCfg where
  Apps : List (String × App)
deriving DecidableEq

/-- Map lookup `r.config.Apps[name]`. -/
def lookupApp (cfg : RunnerCfg) (n : String) : Option App :=
  (cfg.Apps.find? (fun p => p.1 = n)).map Prod.snd

/-- The errors `Runner.Run` can return before any application is started. -/
inductive RunError where
  | sessionFailed (msg : String)
  | appNotFound (name : String)
  | noApps
deriving DecidableEq

/-- The explicit-names selection loop of `Runner.Run` (lines 49-60): each
given name is looked up in order, failing on the first one that does not
exist; each found application is copied and its paths translated. -/
def selectNamed (cfg : RunnerCfg) (sessionDir : String) :
    List String → Except RunError (List (String × App))
  | [] => .ok []
  | n :: ns =>
    match lookupApp cfg n with
    | none => .error (.appNotFound n)
    | some a => (selectNamed cfg sessionDir ns).map
        (fun rest => (n, translatePaths sessionDir a) :: rest)

namespace Runner

/-- The selection phase of `Runner.Run` (lines 39-72), after the session
directory has been resolved: validate explicit names or take all configured
applications, translating paths into each copy, then fail when the selected
set is empty. -/
def RunSelect (cfg : RunnerCfg) (names : List String) (sessionDir : String) :
    Except RunError (List (String × App)) :=
  match (if names ≠ [] then selectNamed cfg sessionDir names
         else .ok (cfg.Apps.map (fun p => (p.1, translatePaths sessionDir p.2)))) with
  | .error e => .error e
  | .ok apps => if apps = [] then .error .noApps else .ok apps

/-- `Runner.Run` (lines 39-114) up to the blocking wait: generates the
session directory (its OS outcome is the `sessionRes` parameter), selects
and translates the applications, then starts every selected application.
Returns the result, the applications started (with the specs they were
started with), and the number of session directories created. -/
def Run (cfg : RunnerCfg) (sessionRes : Except String String) (names : List String) :
    Except RunError (List (String × App)) × List (String × App) × Nat :=
  match sessionRes with
  | .error e => (.error (.sessionFailed e), [], 0)
  | .ok dir =>
    match RunSelect cfg names dir with
    | .error e => (.error e, [], 1)
    | .ok apps => (.ok apps, apps, 1)

end Runner

/-! ## Claim C7: selection validation in `Run` -/

theorem selectNamed_first_missing (cfg : RunnerCfg) (d : String) :
    ∀ (pre : List String), (∀ m ∈ pre, (lookupApp cfg m).isSome) →
      ∀ (n : String), lookupApp cfg n = none → ∀ (post : List String),
        selectNamed cfg d (pre ++ n :: post) = .error (.appNotFound n) := by
  intro pre
  induction pre with
  | nil =>
    intro _ n hn post
    rw [List.nil_append]
    unfold selectNamed
    rw [hn]
  | cons m pre ih =>
    intro h n hn post
    have hm := h m (List.mem_cons_self m pre)
    obtain ⟨a, ha⟩ := Option.isSome_iff_exists.mp hm
    rw [List.cons_append]
    unfold selectNamed
    rw [ha]
    rw [ih (fun x hx => h x (List.mem_cons_of_mem m hx)) n hn post]
    rfl

theorem selectNamed_mem (cfg : RunnerCfg) (d : String) :
    ∀ (ns : List String) (apps : List (String × App)),
      selectNamed cfg d ns = .ok apps → ∀ p ∈ apps,
        ∃ orig, (p.1, orig) ∈ cfg.Apps ∧ p.2 = translatePaths d orig := by
  intro ns
  induction ns with
  | nil =>
    intro apps happs p hp
    unfold selectNamed at happs
    cases happs
    simp at hp
  | cons n ns ih =>
    intro apps happs p hp
    unfold selectNamed at happs
    cases hl : lookupApp cfg n with
    | none => rw [hl] at happs; cases happs
    | some a =>
      rw [hl] at happs
      cases hrest : selectNamed cfg d ns with
      | error e => rw [hrest] at happs; cases happs
      | ok rest =>
        rw [hrest] at happs
        have : apps = (n, translatePaths d a) :: rest := by
          cases happs
          rfl
        subst this
        rcases List.mem_cons.mp hp with h | h
        · subst h
          obtain ⟨q, hfindq, hq2⟩ := Option.map_eq_some'.mp hl
          have hqm := List.mem_of_find?_eq_some hfindq
          have hqn : q.1 = n := by
            have := List.find?_some hfindq
            simpa using this
          refine ⟨q.2, ?_, ?_⟩
          · show (n, q.2) ∈ cfg.Apps
            rw [← hqn]
            exact hqm
          · show translatePaths d a = translatePaths d q.2
            rw [hq2]
        · exact ih rest hrest p h

/-- C7: `Run` fails with the app-not-found error for the first explicitly
given name missing from the configuration, before starting anything; with no
names it selects every configured application; and it fails with the
no-applications error when the selected set is empty. (The session directory
creation that precedes selection is assumed to succeed.) -/
theorem run_selection_validation (cfg : RunnerCfg) (d : String) :
    (∀ (pre : List String), (∀ m ∈ pre, (lookupApp cfg m).isSome) →
      ∀ (n : String), lookupApp cfg n = none → ∀ (post : List String),
        Runner.Run cfg (.ok d) (pre ++ n :: post) = (.error (.appNotFound n), [], 1)) ∧
    (cfg.Apps ≠ [] →
      Runner.Run cfg (.ok d) [] =
        (.ok (cfg.Apps.map (fun p => (p.1, translatePaths d p.2))),
         cfg.Apps.map (fun p => (p.1, translatePaths d p.2)), 1)) ∧
    (cfg.Apps = [] → Runner.Run cfg (.ok d) [] = (.error .noApps, [], 1)) := by
  refine ⟨?_, ?_, ?_⟩
  · intro pre hpre n hn post
    have hne : pre ++ n :: post ≠ [] := by
      cases pre <;> simp
    have hsel := selectNamed_first_missing cfg d pre hpre n hn post
    unfold Runner.Run Runner.RunSelect
    dsimp only
    rw [if_pos hne, hsel]
  · intro hne
    have hmapne : cfg.Apps.map (fun p => (p.1, translatePaths d p.2)) ≠ [] := by
      simpa using hne
    unfold Runner.Run Runner.RunSelect
    dsimp only
    rw [if_neg (by simp)]
    dsimp only
    rw [if_neg hmapne]
  · intro hnil
    unfold Runner.Run Runner.RunSelect
    dsimp only
    rw [if_neg (by simp), hnil]
    rfl

/-- An application spec referencing `./tmp/` paths, as in the sample
configuration. -/
def appTmp : App :=
  { BuildCmd := "go build -o ./tmp/api ./cmd/api", Bin := "./tmp/api", TmpDir := "./tmp" }

/-- A configuration with the single application `api`. -/
def cfgOne : RunnerCfg := ⟨[("api", appTmp)]⟩

/-- Witness for C7: a missing explicit name fails without starting anything;
the one-app configuration with no names selects that app; the empty
configuration fails with the no-applications error. -/
theorem run_selection_validation_witness :
    Runner.Run cfgOne (.ok "/tmp/wisp/00000000") ["worker"] =
      (.error (.appNotFound "worker"), [], 1) ∧
    Runner.Run cfgOne (.ok "/tmp/wisp/00000000") [] =
      (.ok [("api", translatePaths "/tmp/wisp/00000000" appTmp)],
       [("api", translatePaths "/tmp/wisp/00000000" appTmp)], 1) ∧
    Runner.Run ⟨[]⟩ (.ok "/tmp/wisp/00000000") [] = (.error .noApps, [], 1) :=
  ⟨(run_selection_validation cfgOne "/tmp/wisp/00000000").1 [] (by simp) "worker"
      (by decide) [],
   (run_selection_validation cfgOne "/tmp/wisp/00000000").2.1 (by decide),
   (run_selection_validation ⟨[]⟩ "/tmp/wisp/00000000").2.2 rfl⟩

/-! ## Claim C8: the session workspace lifecycle -/

/-- C8: the session directory is a single fresh name under `/tmp/wisp/`
(eight random hex digits), `Run` creates exactly one per run, every selected
application is started with its paths translated to reference that
directory, and at shutdown the cleanup removes the entire directory. -/
theorem session_workspace_lifecycle :
    (∀ b : Nat, goStartsWith (Session.GenerateSessionDir b) "/tmp/wisp/" = true ∧
      (Session.GenerateSessionDir b).data.length = 18) ∧
    (∀ (cfg : RunnerCfg) (d : String) (names : List String),
      (Runner.Run cfg (.ok d) names).2.2 = 1) ∧
    (∀ (cfg : RunnerCfg) (d : String) (names : List String) (p : String × App),
      p ∈ (Runner.Run cfg (.ok d) names).2.1 →
      ∃ orig, (p.1, orig) ∈ cfg.Apps ∧ p.2 = translatePaths d orig) ∧
    (∀ b : Nat, cleanupSessionDirectories (Session.GenerateSessionDir b) =
      some (.ok (some (Session.GenerateSessionDir b)))) := by
  have hdata : ∀ b : Nat, (Session.GenerateSessionDir b).data =
      "/tmp/wisp/".data ++ (Session.generateSessionID b).data := fun b => rfl
  have hpre : ∀ b : Nat, goStartsWith (Session.GenerateSessionDir b) "/tmp/wisp/" = true := by
    intro b
    unfold goStartsWith
    rw [hdata b, List.isPrefixOf_iff_prefix]
    exact List.prefix_append _ _
  have hlen : ∀ b : Nat, (Session.GenerateSessionDir b).data.length = 18 := by
    intro b
    rw [hdata b]
    simp [Session.generateSessionID]
  refine ⟨fun b => ⟨hpre b, hlen b⟩, ?_, ?_, ?_⟩
  · intro cfg d names
    unfold Runner.Run
    dsimp only
    cases Runner.RunSelect cfg names d <;> rfl
  · intro cfg d names p hp
    unfold Runner.Run at hp
    dsimp only at hp
    cases hsel : Runner.RunSelect cfg names d with
    | error e =>
      rw [hsel] at hp
      simp at hp
    | ok apps =>
      rw [hsel] at hp
      dsimp only at hp
      unfold Runner.RunSelect at hsel
      by_cases hne : names ≠ []
      · rw [if_pos hne] at hsel
        cases hsn : selectNamed cfg d names with
        | error e => rw [hsn] at hsel; cases hsel
        | ok apps' =>
          rw [hsn] at hsel
          dsimp only at hsel
          by_cases hemp : apps' = []
          · rw [if_pos hemp] at hsel; cases hsel
          · rw [if_neg hemp] at hsel
            have hae : apps' = apps := by injection hsel
            subst hae
            exact selectNamed_mem cfg d names _ hsn p hp
      · rw [if_neg hne] at hsel
        dsimp only at hsel
        by_cases hemp : cfg.Apps.map (fun q => (q.1, translatePaths d q.2)) = []
        · rw [if_pos hemp] at hsel; cases hsel
        · rw [if_neg hemp] at hsel
          have hae : cfg.Apps.map (fun q => (q.1, translatePaths d q.2)) = apps := by
            injection hsel
          subst hae
          obtain ⟨q, hq, hpq⟩ := List.mem_map.mp hp
          refine ⟨q.2, ?_, ?_⟩
          · show (p.1, q.2) ∈ cfg.Apps
            rw [← hpq]
            exact hq
          · show p.2 = translatePaths d q.2
            rw [← hpq]
  · intro b
    have hne : Session.GenerateSessionDir b ≠ "" := by
      intro hcontra
      have := hlen b
      rw [hcontra] at this
      simp at this
    unfold cleanupSessionDirectories Session.CleanupSessionDir
    rw [if_pos hne, if_neg hne, if_neg (by simp [hpre b])]

/-- Witness for C8: the all-zero random bytes give `/tmp/wisp/00000000`;
running the one-app configuration creates one session directory, starts
`api` with a spec translated from the configured one, and shutdown removes
the whole directory. -/
theorem session_workspace_lifecycle_witness :
    Session.GenerateSessionDir 0 = "/tmp/wisp/00000000" ∧
    (Runner.Run cfgOne (.ok "/tmp/wisp/00000000") []).2.2 = 1 ∧
    (∃ orig, ("api", orig) ∈ cfgOne.Apps ∧
      translatePaths "/tmp/wisp/00000000" appTmp = translatePaths "/tmp/wisp/00000000" orig) ∧
    cleanupSessionDirectories (Session.GenerateSessionDir 0) =
      some (.ok (some (Session.GenerateSessionDir 0))) :=
  ⟨by decide,
   session_workspace_lifecycle.2.1 cfgOne "/tmp/wisp/00000000" [],
   (session_workspace_lifecycle.2.2.1 cfgOne "/tmp/wisp/00000000" []
      ("api", translatePaths "/tmp/wisp/00000000" appTmp)
      (List.mem_singleton.mpr rfl)),
   session_workspace_lifecycle.2.2.2 0⟩

end Wisp
